import Mathlib

/-!
Verification development for the CryptoTaxCalculator repository.

The Python sources are shallowly embedded:
  tax_calculations.py      -> namespace CryptoTax (FIFO engine)
  crypto_tax_calculator.py -> calculate_taxes / validate_input
  csv_parser.py            -> RawRow / clean_data / parse_csv

Modelling conventions:
  - Python floats are modelled as exact rationals (the claims speak of exact
    arithmetic; the float constants 0.22 and 0.15 are modelled as 22/100,
    15/100).
  - Timestamps are modelled at day granularity as integers, matching the
    code, which only ever uses (sale_date - purchase_date).days.
  - pandas DataFrames are modelled as lists of records in row order.
-/

namespace CryptoTax

/-- Canonical transaction row: columns date, symbol, type, quantity, price. -/
structure Tx where
  date : Int
  symbol : String
  type : String
  quantity : ℚ
  price : ℚ
deriving DecidableEq, Repr

/-- A purchase lot, as built in TaxCalculations._calculate_symbol_fifo:
a dict with keys symbol, date, quantity, price, cost_basis.  quantity and
cost_basis are mutated in place during partial consumption. -/
structure Lot where
  symbol : String
  date : Int
  quantity : ℚ
  price : ℚ
  cost_basis : ℚ
deriving DecidableEq, Repr

/-- One entry of transactions_detail, as appended in
TaxCalculations._process_sale. -/
structure MatchRecord where
  symbol : String
  sale_date : Int
  purchase_date : Int
  quantity : ℚ
  proceeds : ℚ
  cost_basis : ℚ
  gain_loss : ℚ
  holding_period_days : Int
  term_type : String
deriving DecidableEq, Repr

/-- The result dict of _process_sale (and the running accumulator of
_calculate_symbol_fifo before holdings are added). -/
structure SaleResult where
  short_term_gain : ℚ
  long_term_gain : ℚ
  details : List MatchRecord
deriving DecidableEq, Repr

/-- One entry of remaining_holdings / holdings_summary. -/
structure Holding where
  symbol : String
  quantity : ℚ
  avg_cost : ℚ
  total_cost_basis : ℚ
  purchase_date : Int
deriving DecidableEq, Repr

/-- The result dict of _calculate_symbol_fifo. -/
structure SymbolResult where
  short_term_gain : ℚ
  long_term_gain : ℚ
  details : List MatchRecord
  holdings : List Holding
deriving DecidableEq, Repr

/-- The results dict of calculate_fifo_taxes (metadata fields added by
CryptoTaxCalculator.calculate_taxes are not part of any claim and are
omitted). -/
structure TaxReport where
  short_term_gain : ℚ
  long_term_gain : ℚ
  estimated_tax : ℚ
  details : List MatchRecord
  holdings : List Holding
deriving DecidableEq, Repr

/-- Python str.lower, modelled per character (the data here is ASCII). -/
def str_lower (s : String) : String := String.mk (s.data.map Char.toLower)

/-- Python str.upper, modelled per character. -/
def str_upper (s : String) : String := String.mk (s.data.map Char.toUpper)

/-- Python str.strip: whitespace removed from both ends. -/
def str_trim (s : String) : String :=
  String.mk (((s.data.dropWhile Char.isWhitespace).reverse.dropWhile
    Char.isWhitespace).reverse)

/-- self.short_term_tax_rate = 0.22 -/
def short_term_tax_rate : ℚ := 22 / 100

/-- self.long_term_tax_rate = 0.15 -/
def long_term_tax_rate : ℚ := 15 / 100

/-- self.long_term_threshold_days = 365 -/
def long_term_threshold_days : Int := 365

def empty_sale_result : SaleResult :=
  { short_term_gain := 0, long_term_gain := 0, details := [] }

/-- The cost basis matched during a partial sale of a lot:
(oldest_lot[cost_basis] / oldest_lot[quantity]) * quantity_sold. -/
def lot_partial_cbm (lot : Lot) (quantity_sold : ℚ) : ℚ :=
  lot.cost_basis / lot.quantity * quantity_sold

/-- The in-place update of the front lot during a partial sale:
quantity -= quantity_sold; cost_basis -= cost_basis_matched. -/
def lot_partial_update (lot : Lot) (quantity_sold : ℚ) : Lot :=
  { lot with
    quantity := lot.quantity - quantity_sold
    cost_basis := lot.cost_basis - lot_partial_cbm lot quantity_sold }

/-- Building one transactions_detail entry in _process_sale.  The fields
proceeds, gain_loss, holding_period and term_type are computed exactly as in
the loop body. -/
def mk_match (symbol : String) (sale_date : Int) (sale_price : ℚ)
    (lot : Lot) (quantity_sold cost_basis : ℚ) : MatchRecord :=
  let proceeds := quantity_sold * sale_price
  let gain_loss := proceeds - cost_basis
  let holding_period := sale_date - lot.date
  { symbol := symbol
    sale_date := sale_date
    purchase_date := lot.date
    quantity := quantity_sold
    proceeds := proceeds
    cost_basis := cost_basis
    gain_loss := gain_loss
    holding_period_days := holding_period
    term_type :=
      if long_term_threshold_days ≤ holding_period then "Long-term"
      else "Short-term" }

/-- Accumulating one match into the sale result: gain_loss is added to the
long-term or short-term running total according to is_long_term
(holding_period >= threshold), and the record is put onto the detail list. -/
def prepend_match (m : MatchRecord) (r : SaleResult) : SaleResult :=
  if long_term_threshold_days ≤ m.holding_period_days then
    { r with long_term_gain := m.gain_loss + r.long_term_gain
             details := m :: r.details }
  else
    { r with short_term_gain := m.gain_loss + r.short_term_gain
             details := m :: r.details }

/-- The while loop of _process_sale: while remaining_to_sell > 0 and
fifo_queue is nonempty, take the oldest (front) lot; if its quantity is at
most the remainder consume it fully and pop it, otherwise consume it
partially, update it in place and leave it at the front.  In the partial
branch remaining_to_sell -= quantity_sold makes the remainder exactly zero,
so the Python loop exits on its next test; the branch therefore returns
directly. -/
def process_sale_loop (symbol : String) (sale_date : Int) (sale_price : ℚ) :
    ℚ → List Lot → SaleResult × List Lot
  | _, [] => (empty_sale_result, [])
  | remaining, lot :: rest =>
    if 0 < remaining then
      if lot.quantity ≤ remaining then
        let m := mk_match symbol sale_date sale_price lot lot.quantity lot.cost_basis
        let r := process_sale_loop symbol sale_date sale_price
          (remaining - lot.quantity) rest
        (prepend_match m r.1, r.2)
      else
        let cbm := lot_partial_cbm lot remaining
        let m := mk_match symbol sale_date sale_price lot remaining cbm
        (prepend_match m empty_sale_result, lot_partial_update lot remaining :: rest)
    else (empty_sale_result, lot :: rest)

/-- TaxCalculations._process_sale.  Returns the sale result together with
the queue as it stands after the sale (the Python code mutates the deque in
place). -/
def process_sale (fifo_queue : List Lot) (symbol : String) (sale_date : Int)
    (sale_quantity sale_price : ℚ) : SaleResult × List Lot :=
  process_sale_loop symbol sale_date sale_price sale_quantity fifo_queue

/-- The total quantity held in a queue of lots. -/
def total_quantity (queue : List Lot) : ℚ := (queue.map Lot.quantity).sum

/-- The lot enqueued on a buy transaction:
cost_basis = quantity * price. -/
def mk_lot (symbol : String) (t : Tx) : Lot :=
  { symbol := symbol
    date := t.date
    quantity := t.quantity
    price := t.price
    cost_basis := t.quantity * t.price }

/-- One iteration of the transaction loop in _calculate_symbol_fifo:
a buy appends a lot to the queue, a sell runs _process_sale and accumulates
its gains and detail records, any other type is skipped. -/
def symbol_fifo_step (symbol : String) (st : SaleResult × List Lot) (t : Tx) :
    SaleResult × List Lot :=
  if str_lower t.type == "buy" then
    (st.1, st.2 ++ [mk_lot symbol t])
  else if str_lower t.type == "sell" then
    let r := process_sale st.2 symbol t.date t.quantity t.price
    ({ short_term_gain := st.1.short_term_gain + r.1.short_term_gain
       long_term_gain := st.1.long_term_gain + r.1.long_term_gain
       details := st.1.details ++ r.1.details }, r.2)
  else st

/-- _calculate_symbol_fifo: fold the transactions of one symbol through
the FIFO queue, then report every remaining lot with positive quantity as a
holding (avg_cost is the lot price, total_cost_basis its cost_basis). -/
def calculate_symbol_fifo (symbol : String) (txs : List Tx) : SymbolResult :=
  let out := txs.foldl (symbol_fifo_step symbol) (empty_sale_result, [])
  { short_term_gain := out.1.short_term_gain
    long_term_gain := out.1.long_term_gain
    details := out.1.details
    holdings := (out.2.filter (fun l => 0 < l.quantity)).map (fun l =>
      { symbol := l.symbol
        quantity := l.quantity
        avg_cost := l.price
        total_cost_basis := l.cost_basis
        purchase_date := l.date }) }

/-- Insertion of a transaction into a date-sorted list.  Models the
sort_values call on the date column: the claims proved here depend only on
the output being sorted by date; the tie order of the default pandas sort
algorithm is not specified and no theorem below relies on it. -/
def insert_by_date (t : Tx) : List Tx → List Tx
  | [] => [t]
  | u :: us => if t.date ≤ u.date then t :: u :: us else u :: insert_by_date t us

/-- sort_values on the date column, modelled as insertion sort. -/
def sort_by_date (df : List Tx) : List Tx := df.foldr insert_by_date []

/-- df[symbol].unique(): the distinct symbols in first-occurrence order. -/
def unique_symbols (df : List Tx) : List String :=
  df.foldl (fun acc t => if acc.contains t.symbol then acc else acc ++ [t.symbol]) []

def empty_report : TaxReport :=
  { short_term_gain := 0, long_term_gain := 0, estimated_tax := 0
    details := [], holdings := [] }

/-- The per-symbol aggregation step of calculate_fifo_taxes: select the
rows of one symbol, sort them by date, run the per-symbol FIFO and add its
gains, detail records and holdings to the running totals. -/
def report_step (df : List Tx) (acc : TaxReport) (s : String) : TaxReport :=
  let symbol_df := sort_by_date (df.filter (fun t => t.symbol == s))
  let r := calculate_symbol_fifo s symbol_df
  { short_term_gain := acc.short_term_gain + r.short_term_gain
    long_term_gain := acc.long_term_gain + r.long_term_gain
    estimated_tax := acc.estimated_tax
    details := acc.details ++ r.details
    holdings := acc.holdings ++ r.holdings }

/-- TaxCalculations.calculate_fifo_taxes: iterate the symbols in
first-occurrence order, aggregate the per-symbol results, then set
estimated_tax = max(0, short_term_gain) * short_term_tax_rate
             + max(0, long_term_gain) * long_term_tax_rate. -/
def calculate_fifo_taxes (df : List Tx) : TaxReport :=
  let res := (unique_symbols df).foldl (report_step df) empty_report
  { res with
    estimated_tax := max 0 res.short_term_gain * short_term_tax_rate
      + max 0 res.long_term_gain * long_term_tax_rate }

/-- CryptoTaxCalculator._validate_input.  The function filters invalid
transaction types and non-positive quantities and prices, but only on its
own local binding of df; its boolean verdict is computed from the filtered
rows.  The column-presence check is rendered by the Tx record type. -/
def validate_input (df : List Tx) : Bool :=
  if df.isEmpty then false
  else
    let df1 := df.filter (fun t =>
      str_lower t.type == "buy" || str_lower t.type == "sell")
    let df2 := df1.filter (fun t => 0 < t.quantity && 0 < t.price)
    !df2.isEmpty

/-- CryptoTaxCalculator.calculate_taxes: validate, then compute.  Because
_validate_input only rebinds its local df, the computation runs on the
original, unfiltered df.  The metadata fields added to the result are not
modelled. -/
def calculate_taxes (df : List Tx) : Option TaxReport :=
  if validate_input df then some (calculate_fifo_taxes df) else none

/-- Modelled from the spec (for comparison with calculate_taxes): the
subset of rows whose type maps to buy or sell and whose quantity and price
are both strictly positive — the rows the pre-check is said to retain. -/
def policy_filter (df : List Tx) : List Tx :=
  df.filter (fun t =>
    (str_lower t.type == "buy" || str_lower t.type == "sell")
      && 0 < t.quantity && 0 < t.price)

/-- A cost-basis consumption chain for a single lot: each listed quantity is
taken from the lot by the partial-sale rule of _process_sale
(cost_basis_matched = cost_basis / quantity * taken, both fields then
decremented in place).  Returns the emitted cost_basis_matched values and
the lot as it stands afterwards; a final full consumption emits the
remaining cost_basis, which is the cost_basis field of the second component. -/
def consume_partials : Lot → List ℚ → List ℚ × Lot
  | l, [] => ([], l)
  | l, q :: qs =>
    let out := consume_partials (lot_partial_update l q) qs
    (lot_partial_cbm l q :: out.1, out.2)

/-!  Embedding of csv_parser.py.  A raw table is a list of rows already
carrying the five canonical column names (the column-synonym mapping of
_standardize_columns and the presence check of _validate_columns are
rendered by the RawRow record type; a table failing the column check exits
through MissingColumnsError, which is not one of the EmptyInputError cases
the claims are about).  Cell values are strings, as in the parsed CSV.
Missing cells (NaN) are not modelled; every theorem below evaluates the
parser only on fully populated rows. -/

/-- A raw CSV row under the five canonical column names. -/
structure RawRow where
  date : String
  symbol : String
  type : String
  quantity : String
  price : String
deriving DecidableEq, Repr

/-- A row after _clean_data: numeric columns parsed, date still a string. -/
structure CleanRow where
  date : String
  symbol : String
  type : String
  quantity : ℚ
  price : ℚ
deriving DecidableEq, Repr

def starts_with_chars : List Char → List Char → Bool
  | [], _ => true
  | _ :: _, [] => false
  | p :: ps, c :: cs => p == c && starts_with_chars ps cs

/-- The regex replacement of a quote-currency suffix: the pattern matches a
slash or dash followed by the given letters and everything after it, so the
symbol is truncated at the first such marker. -/
def cut_quote (pat : List Char) : List Char → List Char
  | [] => []
  | c :: cs =>
    if (c == '/' || c == '-') && starts_with_chars pat cs then []
    else c :: cut_quote pat cs

def usd_chars : List Char := ['U', 'S', 'D']

def eur_chars : List Char := ['E', 'U', 'R']

/-- Symbol cleaning in _clean_data: strip, uppercase, then remove the
quote-currency suffixes.  The USDT pattern is subsumed by the USD pattern
(USD followed by anything), exactly as in the Python replacements, where
the second regex never matches after the first has run. -/
def clean_symbol (s : String) : String :=
  let up := (str_upper (str_trim s)).data
  String.mk (cut_quote eur_chars (cut_quote usd_chars up))

/-- The type-synonym replacement table of _clean_data (whole-value
replacement, as pandas replace does on scalars). -/
def map_type_value : String → String
  | "purchase" => "buy"
  | "bought" => "buy"
  | "acquire" => "buy"
  | "deposit" => "buy"
  | "sold" => "sell"
  | "sale" => "sell"
  | "dispose" => "sell"
  | "withdrawal" => "sell"
  | s => s

/-- Type cleaning in _clean_data: lowercase, strip, then map synonyms.
Values resolving to neither buy nor sell are kept (the parser does not drop
them; the engine skips them). -/
def clean_type (s : String) : String :=
  map_type_value (str_trim (str_lower s))

/-- The currency-symbol stripping applied to numeric columns. -/
def strip_currency (s : String) : String :=
  String.mk (s.data.filter (fun c =>
    !(c == '$' || c == ',' || c == '€' || c == '£')))

def digits_to_nat : Nat → List Char → Option Nat
  | acc, [] => some acc
  | acc, c :: cs =>
    if c.isDigit then digits_to_nat (acc * 10 + (c.toNat - 48)) cs
    else none

/-- Model of pandas to_numeric with coercion, restricted to plain signed
decimal literals (an optional minus sign, an integer part, an optional
fractional part); anything else coerces to invalid.  The repository feeds
this only through strip_currency. -/
def parse_decimal (s : String) : Option ℚ :=
  let cs := s.toList
  let signed := cs.head? = some '-'
  let body := if signed then cs.tail else cs
  let int_part := body.takeWhile Char.isDigit
  let rest := body.dropWhile Char.isDigit
  let build : Option ℚ :=
    match rest with
    | [] =>
      if int_part.isEmpty then none
      else (digits_to_nat 0 int_part).map (fun n => (n : ℚ))
    | '.' :: frac =>
      if frac.isEmpty ∨ (int_part.isEmpty ∧ frac.isEmpty) then none
      else
        match digits_to_nat 0 int_part, digits_to_nat 0 frac with
        | some i, some f =>
          some ((i : ℚ) + (f : ℚ) / ((10 : ℚ) ^ frac.length))
        | _, _ => none
    | _ => none
  match build with
  | some v => some (if signed then -v else v)
  | none => none

/-- CSVParser._clean_data: clean the symbol and type columns, coerce the
numeric columns (dropping rows whose quantity or price does not parse — the
dropna step; date, symbol and type are fully populated strings here), then
keep only rows with quantity > 0 and price > 0. -/
def clean_data (rows : List RawRow) : List CleanRow :=
  rows.filterMap (fun r =>
    let sym := clean_symbol r.symbol
    let ty := clean_type r.type
    match parse_decimal (strip_currency r.quantity),
          parse_decimal (strip_currency r.price) with
    | some q, some p =>
      if 0 < q && 0 < p then
        some { date := r.date, symbol := sym, type := ty, quantity := q, price := p }
      else none
    | _, _ => none)

/-- Splitting a character list at dashes. -/
def split_on_dash : List Char → List (List Char)
  | [] => [[]]
  | x :: xs =>
    let r := split_on_dash xs
    if x == '-' then [] :: r
    else
      match r with
      | [] => [[x]]
      | g :: gs => (x :: g) :: gs

/-- Model of the date parsing for the ISO date-only format, one of the
formats in common_date_formats.  The encoding is strictly monotone in
(year, month, day), which is all the claims use of dates. -/
def parse_date_iso (s : String) : Option Int :=
  match split_on_dash s.data with
  | [ys, ms, ds] =>
    match digits_to_nat 0 ys, digits_to_nat 0 ms, digits_to_nat 0 ds with
    | some y, some m, some d =>
      if ys.length = 4 ∧ 1 ≤ m ∧ m ≤ 12 ∧ 1 ≤ d ∧ d ≤ 31 then
        some ((y : Int) * 372 + ((m : Int) - 1) * 31 + ((d : Int) - 1))
      else none
    | _, _, _ => none
  | _ => none

/-- CSVParser._parse_dates: the code tries each format on the whole column
and falls back to per-value coercion, dropping rows whose date does not
parse; under the single modelled format both paths keep exactly the rows
whose date parses.  The None return of the Python function is reachable
only when the coercing fallback itself raises, which the claims do not
touch; the model therefore always returns a row list. -/
def parse_dates_rows (rows : List CleanRow) : List Tx :=
  rows.filterMap (fun r =>
    (parse_date_iso r.date).map (fun d =>
      { date := d, symbol := r.symbol, type := r.type
        quantity := r.quantity, price := r.price }))

/-- CSVParser.parse_csv: fail on an empty raw table, otherwise clean,
parse dates, sort by date and return the canonical rows.  Note that no
emptiness check is repeated after cleaning: a non-empty raw table whose
rows are all dropped comes back as an empty canonical list, not as a
failure. -/
def parse_csv (raw : List RawRow) : Option (List Tx) :=
  if raw.isEmpty then none
  else some (sort_by_date (parse_dates_rows (clean_data raw)))

/-! Concrete inputs used by witnesses and counterexamples. -/

/-- A zero-quantity buy, a covering buy and a sell: the zero-quantity row is
out of policy but reaches the engine. -/
def c9_df : List Tx := [
  { date := 0, symbol := "BTC", type := "buy", quantity := 0, price := 10 },
  { date := 1, symbol := "BTC", type := "buy", quantity := 1, price := 10 },
  { date := 2, symbol := "BTC", type := "sell", quantity := 1, price := 20 }]

/-- A raw CSV row whose quantity is zero: it is dropped by cleaning, so the
cleaned table is empty while the raw table is not. -/
def c8_row : RawRow :=
  { date := "2023-01-01", symbol := "BTC", type := "buy", quantity := "0", price := "10" }

/-- A short-term loss and a long-term loss on one symbol: both gain totals
are negative. -/
def c4_df : List Tx := [
  { date := 0, symbol := "BTC", type := "buy", quantity := 1, price := 10 },
  { date := 1, symbol := "BTC", type := "sell", quantity := 1, price := 5 },
  { date := 100, symbol := "BTC", type := "buy", quantity := 1, price := 10 },
  { date := 500, symbol := "BTC", type := "sell", quantity := 1, price := 5 }]

/-- Two holdings with a holding period of exactly 364 and exactly 365 days
at their respective sales. -/
def c3_txs : List Tx := [
  { date := 0, symbol := "BTC", type := "buy", quantity := 1, price := 10 },
  { date := 364, symbol := "BTC", type := "sell", quantity := 1, price := 20 },
  { date := 1000, symbol := "BTC", type := "buy", quantity := 1, price := 10 },
  { date := 1365, symbol := "BTC", type := "sell", quantity := 1, price := 20 }]

/-- The record with a 364-day holding period emitted on c3_txs. -/
def c3_m364 : MatchRecord :=
  { symbol := "BTC", sale_date := 364, purchase_date := 0, quantity := 1,
    proceeds := 20, cost_basis := 10, gain_loss := 10,
    holding_period_days := 364, term_type := "Short-term" }

/-- The record with a 365-day holding period emitted on c3_txs. -/
def c3_m365 : MatchRecord :=
  { symbol := "BTC", sale_date := 1365, purchase_date := 1000, quantity := 1,
    proceeds := 20, cost_basis := 10, gain_loss := 10,
    holding_period_days := 365, term_type := "Long-term" }

/-- Two buys then a sell spanning both lots. -/
def c2_df : List Tx := [
  { date := 0, symbol := "BTC", type := "buy", quantity := 1, price := 10 },
  { date := 5, symbol := "BTC", type := "buy", quantity := 1, price := 10 },
  { date := 10, symbol := "BTC", type := "sell", quantity := 3/2, price := 20 }]

/-- A buy followed by a partial sell: one lot remains, partially consumed. -/
def c10_txs : List Tx := [
  { date := 0, symbol := "BTC", type := "buy", quantity := 1, price := 10 },
  { date := 1, symbol := "BTC", type := "sell", quantity := 1/2, price := 20 }]

/-! Helper lemmas. -/

lemma str_lower_buy : str_lower "buy" = "buy" := by decide

lemma str_lower_sell : str_lower "sell" = "sell" := by decide

lemma sell_neq_buy : (("sell" : String) = "buy") = False := eq_false (by decide)

lemma prepend_match_details (m : MatchRecord) (r : SaleResult) :
    (prepend_match m r).details = m :: r.details := by
  unfold prepend_match; split <;> rfl

/-- Every detail record a sale emits satisfies the proceeds and gain_loss
equations of the loop body. -/
lemma sale_loop_matches (symbol : String) (d : Int) (P : ℚ) :
    ∀ (queue : List Lot) (R : ℚ),
      ∀ m ∈ (process_sale_loop symbol d P R queue).1.details,
        m.proceeds = m.quantity * P ∧ m.gain_loss = m.proceeds - m.cost_basis := by
  intro queue
  induction queue with
  | nil =>
    intro R m hm
    simp [process_sale_loop, empty_sale_result] at hm
  | cons lot rest ih =>
    intro R m hm
    simp only [process_sale_loop] at hm
    by_cases h1 : 0 < R
    · rw [if_pos h1] at hm
      by_cases h2 : lot.quantity ≤ R
      · rw [if_pos h2] at hm
        rw [prepend_match_details] at hm
        rcases List.mem_cons.mp hm with h | h
        · subst h; exact ⟨rfl, rfl⟩
        · exact ih (R - lot.quantity) m h
      · rw [if_neg h2] at hm
        rw [prepend_match_details] at hm
        rcases List.mem_cons.mp hm with h | h
        · subst h; exact ⟨rfl, rfl⟩
        · simp [empty_sale_result] at h
    · rw [if_neg h1] at hm
      simp [empty_sale_result] at hm

/-- Claim C1: one iteration of the sale-matching loop: with a positive
remainder Q and a non-empty queue, the front lot is taken; if its quantity
is at most Q it is consumed fully (quantity_matched is the lot quantity,
cost_basis_matched the lot cost_basis, the lot is popped and matching
continues on the rest with Q reduced), otherwise it is consumed partially
(quantity_matched is Q, cost_basis_matched is cost_basis / quantity * Q,
the lot is decremented in place and stays at the front); and every emitted
match has proceeds = quantity_matched * sale_price and gain_loss =
proceeds - cost_basis_matched. -/
theorem claim1_fifo_step (symbol : String) (d : Int) (P Q : ℚ)
    (lot : Lot) (rest : List Lot) (hQ : 0 < Q) :
    (lot.quantity ≤ Q →
      process_sale_loop symbol d P Q (lot :: rest) =
        (prepend_match (mk_match symbol d P lot lot.quantity lot.cost_basis)
          (process_sale_loop symbol d P (Q - lot.quantity) rest).1,
         (process_sale_loop symbol d P (Q - lot.quantity) rest).2))
    ∧ (Q < lot.quantity →
      process_sale_loop symbol d P Q (lot :: rest) =
        (prepend_match (mk_match symbol d P lot Q (lot_partial_cbm lot Q))
          empty_sale_result,
         lot_partial_update lot Q :: rest))
    ∧ (∀ (R : ℚ) (queue : List Lot),
        ∀ m ∈ (process_sale_loop symbol d P R queue).1.details,
          m.proceeds = m.quantity * P ∧ m.gain_loss = m.proceeds - m.cost_basis) := by
  refine ⟨?_, ?_, ?_⟩
  · intro hle
    simp only [process_sale_loop]
    rw [if_pos hQ, if_pos hle]
  · intro hlt
    simp only [process_sale_loop]
    rw [if_pos hQ, if_neg (not_le.mpr hlt)]
  · intro R queue
    exact sale_loop_matches symbol d P queue R

/-- Witness for claim C1 at a concrete step. -/
theorem claim1_fifo_step_witness :
    (0 : ℚ) < 5 ∧
    ((({ symbol := "B", date := 0, quantity := 2, price := 3, cost_basis := 6 } : Lot).quantity ≤ 5 →
      process_sale_loop "B" 0 2 5
          [{ symbol := "B", date := 0, quantity := 2, price := 3, cost_basis := 6 }] =
        (prepend_match
          (mk_match "B" 0 2
            { symbol := "B", date := 0, quantity := 2, price := 3, cost_basis := 6 }
            ({ symbol := "B", date := 0, quantity := 2, price := 3, cost_basis := 6 } : Lot).quantity
            ({ symbol := "B", date := 0, quantity := 2, price := 3, cost_basis := 6 } : Lot).cost_basis)
          (process_sale_loop "B" 0 2
            (5 - ({ symbol := "B", date := 0, quantity := 2, price := 3, cost_basis := 6 } : Lot).quantity) []).1,
         (process_sale_loop "B" 0 2
            (5 - ({ symbol := "B", date := 0, quantity := 2, price := 3, cost_basis := 6 } : Lot).quantity) []).2))
    ∧ ((5 : ℚ) < ({ symbol := "B", date := 0, quantity := 2, price := 3, cost_basis := 6 } : Lot).quantity →
      process_sale_loop "B" 0 2 5
          [{ symbol := "B", date := 0, quantity := 2, price := 3, cost_basis := 6 }] =
        (prepend_match
          (mk_match "B" 0 2
            { symbol := "B", date := 0, quantity := 2, price := 3, cost_basis := 6 }
            5 (lot_partial_cbm { symbol := "B", date := 0, quantity := 2, price := 3, cost_basis := 6 } 5))
          empty_sale_result,
         lot_partial_update { symbol := "B", date := 0, quantity := 2, price := 3, cost_basis := 6 } 5 :: []))
    ∧ (∀ (R : ℚ) (queue : List Lot),
        ∀ m ∈ (process_sale_loop "B" 0 2 R queue).1.details,
          m.proceeds = m.quantity * 2 ∧ m.gain_loss = m.proceeds - m.cost_basis)) :=
  ⟨by norm_num,
   claim1_fifo_step "B" 0 2 5
     { symbol := "B", date := 0, quantity := 2, price := 3, cost_basis := 6 } []
     (by norm_num)⟩

/-! Term classification helpers (claim C3). -/

lemma long_beq_short : (("Long-term" : String) == "Short-term") = false := by decide

lemma short_beq_short : (("Short-term" : String) == "Short-term") = true := by decide

lemma long_beq_long : (("Long-term" : String) == "Long-term") = true := by decide

lemma short_beq_long : (("Short-term" : String) == "Long-term") = false := by decide

/-- Every detail record a sale emits carries the term_type computed from its
own holding_period_days by the threshold test. -/
lemma sale_loop_term (symbol : String) (d : Int) (P : ℚ) :
    ∀ (queue : List Lot) (R : ℚ),
      ∀ m ∈ (process_sale_loop symbol d P R queue).1.details,
        m.term_type =
          if long_term_threshold_days ≤ m.holding_period_days then "Long-term"
          else "Short-term" := by
  intro queue
  induction queue with
  | nil =>
    intro R m hm
    simp [process_sale_loop, empty_sale_result] at hm
  | cons lot rest ih =>
    intro R m hm
    simp only [process_sale_loop] at hm
    by_cases h1 : 0 < R
    · rw [if_pos h1] at hm
      by_cases h2 : lot.quantity ≤ R
      · rw [if_pos h2, prepend_match_details] at hm
        rcases List.mem_cons.mp hm with h | h
        · subst h; rfl
        · exact ih (R - lot.quantity) m h
      · rw [if_neg h2, prepend_match_details] at hm
        rcases List.mem_cons.mp hm with h | h
        · subst h; rfl
        · simp [empty_sale_result] at h
    · rw [if_neg h1] at hm
      simp [empty_sale_result] at hm

/-- The sale loop accumulates each gain_loss into the total named by the
term_type of its record. -/
lemma sale_loop_sums (symbol : String) (d : Int) (P : ℚ) :
    ∀ (queue : List Lot) (R : ℚ),
      (process_sale_loop symbol d P R queue).1.short_term_gain =
        (((process_sale_loop symbol d P R queue).1.details.filter
            (fun m => m.term_type == "Short-term")).map MatchRecord.gain_loss).sum
      ∧ (process_sale_loop symbol d P R queue).1.long_term_gain =
        (((process_sale_loop symbol d P R queue).1.details.filter
            (fun m => m.term_type == "Long-term")).map MatchRecord.gain_loss).sum := by
  intro queue
  induction queue with
  | nil =>
    intro R
    simp [process_sale_loop, empty_sale_result]
  | cons lot rest ih =>
    intro R
    simp only [process_sale_loop]
    by_cases h1 : 0 < R
    · rw [if_pos h1]
      by_cases h2 : lot.quantity ≤ R
      · rw [if_pos h2]
        have hrec := ih (R - lot.quantity)
        by_cases hc : long_term_threshold_days ≤ d - lot.date
        · simp only [prepend_match, mk_match, lot_partial_cbm, if_pos hc]
          simp [List.filter_cons, long_beq_short, long_beq_long, hrec.1, hrec.2]
        · simp only [prepend_match, mk_match, lot_partial_cbm, if_neg hc]
          simp [List.filter_cons, short_beq_short, short_beq_long, hrec.1, hrec.2]
      · rw [if_neg h2]
        by_cases hc : long_term_threshold_days ≤ d - lot.date
        · simp only [prepend_match, mk_match, lot_partial_cbm, if_pos hc]
          simp [List.filter_cons, long_beq_short, long_beq_long, empty_sale_result]
        · simp only [prepend_match, mk_match, lot_partial_cbm, if_neg hc]
          simp [List.filter_cons, short_beq_short, short_beq_long, empty_sale_result]
    · rw [if_neg h1]
      simp [empty_sale_result]

/-- The transaction fold preserves the term-shape of all emitted records. -/
lemma symbol_fold_term (symbol : String) :
    ∀ (txs : List Tx) (st : SaleResult × List Lot),
      (∀ m ∈ st.1.details,
        m.term_type =
          if long_term_threshold_days ≤ m.holding_period_days then "Long-term"
          else "Short-term") →
      ∀ m ∈ (txs.foldl (symbol_fifo_step symbol) st).1.details,
        m.term_type =
          if long_term_threshold_days ≤ m.holding_period_days then "Long-term"
          else "Short-term" := by
  intro txs
  induction txs with
  | nil => intro st h; exact h
  | cons t rest ih =>
    intro st h
    rw [List.foldl_cons]
    apply ih
    unfold symbol_fifo_step
    by_cases hb : (str_lower t.type == "buy") = true
    · rw [if_pos hb]; exact h
    · rw [if_neg hb]
      by_cases hs : (str_lower t.type == "sell") = true
      · rw [if_pos hs]
        intro m hm
        simp only [List.mem_append] at hm
        rcases hm with h1 | h1
        · exact h m h1
        · exact sale_loop_term symbol t.date t.price st.2 t.quantity m h1
      · rw [if_neg hs]; exact h

/-- The transaction fold preserves the gain-accumulation equations. -/
lemma symbol_fold_sums (symbol : String) :
    ∀ (txs : List Tx) (st : SaleResult × List Lot),
      (st.1.short_term_gain =
          ((st.1.details.filter (fun m => m.term_type == "Short-term")).map
            MatchRecord.gain_loss).sum
        ∧ st.1.long_term_gain =
          ((st.1.details.filter (fun m => m.term_type == "Long-term")).map
            MatchRecord.gain_loss).sum) →
      (txs.foldl (symbol_fifo_step symbol) st).1.short_term_gain =
        (((txs.foldl (symbol_fifo_step symbol) st).1.details.filter
            (fun m => m.term_type == "Short-term")).map MatchRecord.gain_loss).sum
      ∧ (txs.foldl (symbol_fifo_step symbol) st).1.long_term_gain =
        (((txs.foldl (symbol_fifo_step symbol) st).1.details.filter
            (fun m => m.term_type == "Long-term")).map MatchRecord.gain_loss).sum := by
  intro txs
  induction txs with
  | nil => intro st h; exact h
  | cons t rest ih =>
    intro st h
    rw [List.foldl_cons]
    apply ih
    unfold symbol_fifo_step
    by_cases hb : (str_lower t.type == "buy") = true
    · rw [if_pos hb]; exact h
    · rw [if_neg hb]
      by_cases hs : (str_lower t.type == "sell") = true
      · rw [if_pos hs]
        have hr := sale_loop_sums symbol t.date t.price st.2 t.quantity
        constructor
        · simp [process_sale, List.filter_append, h.1, hr.1]
        · simp [process_sale, List.filter_append, h.2, hr.2]
      · rw [if_neg hs]; exact h

/-- Claim C3: a record is classified Long-term exactly when its
holding_period_days reaches the 365-day threshold, Short-term exactly when
it falls below; in particular 364 days is Short-term and 365 days is
Long-term; and the short-term and long-term gain totals are exactly the
sums of the gain_loss values of the records so classified. -/
theorem claim3_term_classification (symbol : String) (txs : List Tx) :
    (∀ m ∈ (calculate_symbol_fifo symbol txs).details,
        (m.term_type = "Long-term" ↔ long_term_threshold_days ≤ m.holding_period_days)
      ∧ (m.term_type = "Short-term" ↔ m.holding_period_days < long_term_threshold_days)
      ∧ (m.holding_period_days = 364 → m.term_type = "Short-term")
      ∧ (m.holding_period_days = 365 → m.term_type = "Long-term"))
    ∧ (calculate_symbol_fifo symbol txs).short_term_gain =
        (((calculate_symbol_fifo symbol txs).details.filter
            (fun m => m.term_type == "Short-term")).map MatchRecord.gain_loss).sum
    ∧ (calculate_symbol_fifo symbol txs).long_term_gain =
        (((calculate_symbol_fifo symbol txs).details.filter
            (fun m => m.term_type == "Long-term")).map MatchRecord.gain_loss).sum := by
  have hterm : ∀ m ∈ (calculate_symbol_fifo symbol txs).details,
      m.term_type =
        if long_term_threshold_days ≤ m.holding_period_days then "Long-term"
        else "Short-term" := by
    intro m hm
    exact symbol_fold_term symbol txs (empty_sale_result, [])
      (by simp [empty_sale_result]) m hm
  refine ⟨?_, ?_⟩
  · intro m hm
    have h := hterm m hm
    by_cases hc : long_term_threshold_days ≤ m.holding_period_days
    · rw [if_pos hc] at h
      refine ⟨⟨fun _ => hc, fun _ => h⟩, ?_, ?_, fun _ => h⟩
      · constructor
        · intro hst; rw [h] at hst; exact absurd hst (by decide)
        · intro hlt; exact absurd hc (not_le.mpr hlt)
      · intro h364
        exfalso
        rw [h364] at hc
        exact absurd hc (by decide)
    · rw [if_neg hc] at h
      refine ⟨⟨?_, ?_⟩, ⟨fun _ => not_le.mp hc, fun _ => h⟩, fun _ => h, ?_⟩
      · intro hlt; rw [h] at hlt; exact absurd hlt (by decide)
      · intro hge; exact absurd hge hc
      · intro h365
        exfalso
        rw [h365] at hc
        exact absurd (by decide : long_term_threshold_days ≤ (365 : Int)) hc
  · exact symbol_fold_sums symbol txs (empty_sale_result, [])
      (by simp [empty_sale_result])

/-- Witness for claim C3: on c3_txs the engine emits a record held 364 days
classified Short-term and a record held 365 days classified Long-term. -/
theorem claim3_term_classification_witness :
    c3_m364 ∈ (calculate_symbol_fifo "BTC" c3_txs).details
    ∧ c3_m364.holding_period_days = 364
    ∧ c3_m364.term_type = "Short-term"
    ∧ c3_m365 ∈ (calculate_symbol_fifo "BTC" c3_txs).details
    ∧ c3_m365.holding_period_days = 365
    ∧ c3_m365.term_type = "Long-term" := by
  have hdetails : (calculate_symbol_fifo "BTC" c3_txs).details = [c3_m364, c3_m365] := by
    norm_num [calculate_symbol_fifo, symbol_fifo_step, process_sale, process_sale_loop,
      mk_lot, mk_match, prepend_match, empty_sale_result, lot_partial_cbm,
      lot_partial_update, str_lower_buy, str_lower_sell, sell_neq_buy,
      long_term_threshold_days, List.foldl, c3_txs, c3_m364, c3_m365]
  have h364 : c3_m364 ∈ (calculate_symbol_fifo "BTC" c3_txs).details := by
    rw [hdetails]; exact List.mem_cons_self _ _
  have h365 : c3_m365 ∈ (calculate_symbol_fifo "BTC" c3_txs).details := by
    rw [hdetails]; simp
  exact ⟨h364, rfl,
    ((claim3_term_classification "BTC" c3_txs).1 c3_m364 h364).2.2.1 rfl,
    h365, rfl,
    ((claim3_term_classification "BTC" c3_txs).1 c3_m365 h365).2.2.2 rfl⟩

/-- Claim C4: estimated_tax is max(0, short_term_gain) times 0.22 plus
max(0, long_term_gain) times 0.15 over the cross-symbol totals; a negative
short-term total contributes exactly zero whatever the sign of the
long-term total, and vice versa. -/
theorem claim4_estimated_tax (df : List Tx) :
    (calculate_fifo_taxes df).estimated_tax =
      max 0 (calculate_fifo_taxes df).short_term_gain * short_term_tax_rate
        + max 0 (calculate_fifo_taxes df).long_term_gain * long_term_tax_rate
    ∧ ((calculate_fifo_taxes df).short_term_gain < 0 →
      (calculate_fifo_taxes df).estimated_tax =
        max 0 (calculate_fifo_taxes df).long_term_gain * long_term_tax_rate)
    ∧ ((calculate_fifo_taxes df).long_term_gain < 0 →
      (calculate_fifo_taxes df).estimated_tax =
        max 0 (calculate_fifo_taxes df).short_term_gain * short_term_tax_rate) := by
  have h1 : (calculate_fifo_taxes df).estimated_tax =
      max 0 (calculate_fifo_taxes df).short_term_gain * short_term_tax_rate
        + max 0 (calculate_fifo_taxes df).long_term_gain * long_term_tax_rate := by
    simp [calculate_fifo_taxes]
  refine ⟨h1, ?_, ?_⟩
  · intro h
    rw [h1, max_eq_left (le_of_lt h), zero_mul, zero_add]
  · intro h
    rw [h1, max_eq_left (le_of_lt h), zero_mul, add_zero]

/-- Witness for claim C4: on c4_df both totals are negative and the
estimated tax collapses to zero contribution from each bucket. -/
theorem claim4_estimated_tax_witness :
    (calculate_fifo_taxes c4_df).short_term_gain < 0
    ∧ (calculate_fifo_taxes c4_df).long_term_gain < 0
    ∧ (calculate_fifo_taxes c4_df).estimated_tax =
        max 0 (calculate_fifo_taxes c4_df).long_term_gain * long_term_tax_rate
    ∧ (calculate_fifo_taxes c4_df).estimated_tax =
        max 0 (calculate_fifo_taxes c4_df).short_term_gain * short_term_tax_rate := by
  have hs : (calculate_fifo_taxes c4_df).short_term_gain < 0 := by
    norm_num [calculate_fifo_taxes, report_step, unique_symbols, sort_by_date,
      insert_by_date, empty_report, calculate_symbol_fifo, symbol_fifo_step,
      process_sale, process_sale_loop, mk_lot, mk_match, prepend_match,
      empty_sale_result, lot_partial_cbm, lot_partial_update, str_lower_buy,
      str_lower_sell, sell_neq_buy, long_term_threshold_days, List.foldl,
      List.foldr, List.filter, c4_df]
  have hl : (calculate_fifo_taxes c4_df).long_term_gain < 0 := by
    norm_num [calculate_fifo_taxes, report_step, unique_symbols, sort_by_date,
      insert_by_date, empty_report, calculate_symbol_fifo, symbol_fifo_step,
      process_sale, process_sale_loop, mk_lot, mk_match, prepend_match,
      empty_sale_result, lot_partial_cbm, lot_partial_update, str_lower_buy,
      str_lower_sell, sell_neq_buy, long_term_threshold_days, List.foldl,
      List.foldr, List.filter, c4_df]
  exact ⟨hs, hl, (claim4_estimated_tax c4_df).2.1 hs,
    (claim4_estimated_tax c4_df).2.2 hl⟩

/-- When the sale quantity covers the whole queue of positive lots, every
lot is consumed fully, in order, and the queue empties. -/
lemma sale_loop_consumes_all (symbol : String) (d : Int) (P : ℚ) :
    ∀ (queue : List Lot) (Q : ℚ),
      (∀ l ∈ queue, 0 < l.quantity) → total_quantity queue ≤ Q →
      (process_sale_loop symbol d P Q queue).1.details =
        queue.map (fun l => mk_match symbol d P l l.quantity l.cost_basis)
      ∧ (process_sale_loop symbol d P Q queue).2 = [] := by
  intro queue
  induction queue with
  | nil =>
    intro Q _ _
    simp [process_sale_loop, empty_sale_result]
  | cons lot rest ih =>
    intro Q hpos hle
    have hlotpos : 0 < lot.quantity := hpos lot (List.mem_cons_self _ _)
    have hrestpos : ∀ l ∈ rest, 0 < l.quantity :=
      fun l hl => hpos l (List.mem_cons_of_mem _ hl)
    have hrestsum : 0 ≤ total_quantity rest := by
      apply List.sum_nonneg
      intro x hx
      obtain ⟨l, hl, rfl⟩ := List.mem_map.mp hx
      exact (hrestpos l hl).le
    have htot : total_quantity (lot :: rest) = lot.quantity + total_quantity rest := by
      simp [total_quantity]
    rw [htot] at hle
    have hQpos : 0 < Q := by linarith
    have hlotle : lot.quantity ≤ Q := by linarith
    have hrec := ih (Q - lot.quantity) hrestpos (by linarith)
    simp only [process_sale_loop, if_pos hQpos, if_pos hlotle]
    exact ⟨by rw [prepend_match_details, hrec.1, List.map_cons], hrec.2⟩

/-- Claim C5: a sell whose quantity is at least the total quantity in the
queue consumes exactly the available lots — one MatchRecord per lot, in
order — and leaves the queue empty; the uncovered remainder produces no
record and no gain contribution, and with no prior buys (empty queue) the
sale produces no records and zero gains, without failing. -/
theorem claim5_uncovered_sell (symbol : String) (d : Int) (P Q : ℚ)
    (queue : List Lot)
    (hpos : ∀ l ∈ queue, 0 < l.quantity)
    (hle : total_quantity queue ≤ Q) :
    (process_sale_loop symbol d P Q queue).1.details =
      queue.map (fun l => mk_match symbol d P l l.quantity l.cost_basis)
    ∧ (process_sale_loop symbol d P Q queue).2 = []
    ∧ (∀ R : ℚ, process_sale_loop symbol d P R [] = (empty_sale_result, [])) := by
  have h := sale_loop_consumes_all symbol d P queue Q hpos hle
  exact ⟨h.1, h.2, fun R => by simp [process_sale_loop]⟩

/-- Witness for claim C5 at a concrete over-large sell. -/
theorem claim5_uncovered_sell_witness :
    (∀ l ∈ [({ symbol := "B", date := 0, quantity := 1, price := 2, cost_basis := 2 } : Lot),
            { symbol := "B", date := 3, quantity := 2, price := 5, cost_basis := 10 }],
        0 < l.quantity)
    ∧ total_quantity
        [{ symbol := "B", date := 0, quantity := 1, price := 2, cost_basis := 2 },
         { symbol := "B", date := 3, quantity := 2, price := 5, cost_basis := 10 }] ≤ 5
    ∧ ((process_sale_loop "B" 400 4 5
          [{ symbol := "B", date := 0, quantity := 1, price := 2, cost_basis := 2 },
           { symbol := "B", date := 3, quantity := 2, price := 5, cost_basis := 10 }]).1.details =
        [({ symbol := "B", date := 0, quantity := 1, price := 2, cost_basis := 2 } : Lot),
         { symbol := "B", date := 3, quantity := 2, price := 5, cost_basis := 10 }].map
          (fun l => mk_match "B" 400 4 l l.quantity l.cost_basis)
      ∧ (process_sale_loop "B" 400 4 5
          [{ symbol := "B", date := 0, quantity := 1, price := 2, cost_basis := 2 },
           { symbol := "B", date := 3, quantity := 2, price := 5, cost_basis := 10 }]).2 = []
      ∧ (∀ R : ℚ, process_sale_loop "B" 400 4 R [] = (empty_sale_result, []))) := by
  have hpos : ∀ l ∈ [({ symbol := "B", date := 0, quantity := 1, price := 2, cost_basis := 2 } : Lot),
      { symbol := "B", date := 3, quantity := 2, price := 5, cost_basis := 10 }], 0 < l.quantity := by
    intro l hl
    rcases List.mem_cons.mp hl with h | h
    · subst h; norm_num
    · rcases List.mem_cons.mp h with h2 | h2
      · subst h2; norm_num
      · simp at h2
  have hle : total_quantity
      [({ symbol := "B", date := 0, quantity := 1, price := 2, cost_basis := 2 } : Lot),
       { symbol := "B", date := 3, quantity := 2, price := 5, cost_basis := 10 }] ≤ 5 := by
    norm_num [total_quantity]
  exact ⟨hpos, hle, claim5_uncovered_sell "B" 400 4 5 _ hpos hle⟩

/-- Claim C6: along any chain of partial consumptions of one lot — the
partial-sale rule of the loop, which emits cost_basis / quantity * taken
and decrements the lot fields in place — followed by a final full
consumption, which emits the remaining cost_basis, the emitted
cost_basis_matched values sum exactly to the original cost_basis of the
lot; and a lot created by a buy starts with cost_basis =
quantity * price. -/
theorem claim6_cost_basis_conservation (l : Lot) (qs : List ℚ)
    (symbol : String) (t : Tx) :
    (consume_partials l qs).1.sum + ((consume_partials l qs).2).cost_basis
      = l.cost_basis
    ∧ (mk_lot symbol t).cost_basis = t.quantity * t.price := by
  constructor
  · induction qs generalizing l with
    | nil => simp [consume_partials]
    | cons q rest ih =>
      simp only [consume_partials, List.sum_cons]
      have h := ih (lot_partial_update l q)
      have h2 : (lot_partial_update l q).cost_basis
          = l.cost_basis - lot_partial_cbm l q := rfl
      rw [h2] at h
      linarith
  · rfl

/-- Counterexample to claim C8: a non-empty raw table (one row whose
quantity is the string 0) survives the initial emptiness check, loses all
rows in cleaning, and parse_csv still returns a canonical sequence — the
empty one — instead of failing. -/
theorem claim8_empty_counterexample :
    ([c8_row] : List RawRow) ≠ []
    ∧ clean_data [c8_row] = []
    ∧ parse_csv [c8_row] = some [] := by
  refine ⟨by decide, by decide, by decide⟩

/-- Claim C8 as amended: the Normalizer fails (returns no sequence) exactly
when the raw table has zero rows; when rows exist but none survives
cleaning, it returns the empty canonical sequence to the caller. -/
theorem claim8_empty_amended (raw : List RawRow) :
    (parse_csv raw = none ↔ raw = [])
    ∧ (raw ≠ [] → clean_data raw = [] → parse_csv raw = some []) := by
  constructor
  · cases raw with
    | nil => simp [parse_csv]
    | cons r rest => simp [parse_csv]
  · intro hne hclean
    cases raw with
    | nil => exact absurd rfl hne
    | cons r rest =>
      simp [parse_csv, hclean, parse_dates_rows, sort_by_date]

/-- Witness for the amended claim C8 at the concrete dropped-row table. -/
theorem claim8_empty_amended_witness :
    ([c8_row] : List RawRow) ≠ []
    ∧ clean_data [c8_row] = []
    ∧ parse_csv [c8_row] = some [] ∧ (parse_csv [c8_row] = none ↔ [c8_row] = []) :=
  ⟨by decide, by decide,
   (claim8_empty_amended [c8_row]).2 (by decide) (by decide),
   (claim8_empty_amended [c8_row]).1⟩

/-- Claim C9 is a code bug: _validate_input only filters its local binding
of df, so calculate_taxes hands the original, unfiltered rows to the
engine.  On c9_df (which contains a zero-quantity buy) validation passes,
the engine runs on all three rows and emits two MatchRecords — one of them
of quantity zero — whereas the policy-filtered subset yields one; the
produced report is not the report of the filtered subset. -/
theorem claim9_unfiltered_engine :
    validate_input c9_df = true
    ∧ calculate_taxes c9_df = some (calculate_fifo_taxes c9_df)
    ∧ (calculate_fifo_taxes c9_df).details.length = 2
    ∧ (calculate_fifo_taxes (policy_filter c9_df)).details.length = 1
    ∧ calculate_fifo_taxes c9_df ≠ calculate_fifo_taxes (policy_filter c9_df) := by
  have hvalid : validate_input c9_df = true := by decide
  have h2 : (calculate_fifo_taxes c9_df).details.length = 2 := by
    norm_num [calculate_fifo_taxes, report_step, unique_symbols, sort_by_date,
      insert_by_date, empty_report, calculate_symbol_fifo, symbol_fifo_step,
      process_sale, process_sale_loop, mk_lot, mk_match, prepend_match,
      empty_sale_result, lot_partial_cbm, lot_partial_update, str_lower_buy,
      str_lower_sell, sell_neq_buy, long_term_threshold_days, List.foldl,
      List.foldr, List.filter, c9_df]
  have h1 : (calculate_fifo_taxes (policy_filter c9_df)).details.length = 1 := by
    norm_num [policy_filter, calculate_fifo_taxes, report_step, unique_symbols,
      sort_by_date, insert_by_date, empty_report, calculate_symbol_fifo,
      symbol_fifo_step, process_sale, process_sale_loop, mk_lot, mk_match,
      prepend_match, empty_sale_result, lot_partial_cbm, lot_partial_update,
      str_lower_buy, str_lower_sell, sell_neq_buy, long_term_threshold_days,
      List.foldl, List.foldr, List.filter, c9_df]
  refine ⟨hvalid, by simp [calculate_taxes, hvalid], h2, h1, ?_⟩
  intro h
  rw [h, h1] at h2
  exact absurd h2 (by norm_num)

/-- A sale preserves the per-lot invariant cost_basis = quantity * price
with positive quantity: full consumptions only remove lots, and a partial
consumption of a positive lot keeps the relation exactly. -/
lemma sale_preserves_good (symbol : String) (d : Int) (P : ℚ) :
    ∀ (queue : List Lot) (Q : ℚ),
      (∀ l ∈ queue, l.cost_basis = l.quantity * l.price ∧ 0 < l.quantity) →
      ∀ l ∈ (process_sale_loop symbol d P Q queue).2,
        l.cost_basis = l.quantity * l.price ∧ 0 < l.quantity := by
  intro queue
  induction queue with
  | nil =>
    intro Q h l hl
    simp [process_sale_loop] at hl
  | cons lot rest ih =>
    intro Q h l hl
    simp only [process_sale_loop] at hl
    by_cases h1 : 0 < Q
    · rw [if_pos h1] at hl
      by_cases h2 : lot.quantity ≤ Q
      · rw [if_pos h2] at hl
        exact ih (Q - lot.quantity) (fun x hx => h x (List.mem_cons_of_mem _ hx)) l hl
      · rw [if_neg h2] at hl
        rcases List.mem_cons.mp hl with heq | hmem
        · obtain ⟨hcb, hq⟩ := h lot (List.mem_cons_self _ _)
          have hne : lot.quantity ≠ 0 := ne_of_gt hq
          have hlt : Q < lot.quantity := not_le.mp h2
          subst heq
          constructor
          · show (lot_partial_update lot Q).cost_basis
              = (lot_partial_update lot Q).quantity * (lot_partial_update lot Q).price
            simp only [lot_partial_update, lot_partial_cbm]
            rw [hcb]
            field_simp
            ring
          · show 0 < (lot_partial_update lot Q).quantity
            simp only [lot_partial_update]
            have : lot.quantity - Q > 0 := by linarith
            exact this
        · exact h l (List.mem_cons_of_mem _ hmem)
    · rw [if_neg h1] at hl
      exact h l hl

/-- The transaction fold preserves the per-lot invariant when all
transactions have positive quantity and price. -/
lemma fold_preserves_good (symbol : String) :
    ∀ (txs : List Tx) (st : SaleResult × List Lot),
      (∀ t ∈ txs, 0 < t.quantity ∧ 0 < t.price) →
      (∀ l ∈ st.2, l.cost_basis = l.quantity * l.price ∧ 0 < l.quantity) →
      ∀ l ∈ (txs.foldl (symbol_fifo_step symbol) st).2,
        l.cost_basis = l.quantity * l.price ∧ 0 < l.quantity := by
  intro txs
  induction txs with
  | nil => intro st _ h; exact h
  | cons t rest ih =>
    intro st hpos h
    rw [List.foldl_cons]
    apply ih _ (fun x hx => hpos x (List.mem_cons_of_mem _ hx))
    obtain ⟨htq, htp⟩ := hpos t (List.mem_cons_self _ _)
    unfold symbol_fifo_step
    by_cases hb : (str_lower t.type == "buy") = true
    · rw [if_pos hb]
      intro l hl
      rcases List.mem_append.mp hl with hmem | hmem
      · exact h l hmem
      · rcases List.mem_singleton.mp hmem with rfl
        exact ⟨rfl, htq⟩
    · rw [if_neg hb]
      by_cases hs : (str_lower t.type == "sell") = true
      · rw [if_pos hs]
        exact sale_preserves_good symbol t.date t.price st.2 t.quantity h
      · rw [if_neg hs]; exact h

/-- Claim C10: with positive-quantity, positive-price input, every lot in
the queue satisfies cost_basis = quantity * price and quantity > 0 after
every prefix of the processing, and hence every reported holding satisfies
total_cost_basis = quantity * avg_cost with quantity > 0. -/
theorem claim10_lot_invariant (symbol : String) (txs : List Tx)
    (hpos : ∀ t ∈ txs, 0 < t.quantity ∧ 0 < t.price) :
    (∀ pre suf, txs = pre ++ suf →
      ∀ l ∈ (pre.foldl (symbol_fifo_step symbol) (empty_sale_result, [])).2,
        l.cost_basis = l.quantity * l.price ∧ 0 < l.quantity)
    ∧ (∀ h ∈ (calculate_symbol_fifo symbol txs).holdings,
        h.total_cost_basis = h.quantity * h.avg_cost ∧ 0 < h.quantity) := by
  have hmain : ∀ pre suf, txs = pre ++ suf →
      ∀ l ∈ (pre.foldl (symbol_fifo_step symbol) (empty_sale_result, [])).2,
        l.cost_basis = l.quantity * l.price ∧ 0 < l.quantity := by
    intro pre suf heq
    apply fold_preserves_good symbol pre (empty_sale_result, [])
    · intro t ht
      exact hpos t (heq ▸ List.mem_append_left suf ht)
    · intro l hl
      simp at hl
  refine ⟨hmain, ?_⟩
  intro h hh
  have hq : ∀ l ∈ (txs.foldl (symbol_fifo_step symbol) (empty_sale_result, [])).2,
      l.cost_basis = l.quantity * l.price ∧ 0 < l.quantity :=
    hmain txs [] (List.append_nil txs).symm
  simp only [calculate_symbol_fifo, List.mem_map] at hh
  obtain ⟨l, hl, rfl⟩ := hh
  have hmem := List.mem_of_mem_filter hl
  obtain ⟨hcb, hpos2⟩ := hq l hmem
  exact ⟨hcb, hpos2⟩

/-- Witness for claim C10 on a buy followed by a partial sell. -/
theorem claim10_lot_invariant_witness :
    (∀ t ∈ c10_txs, 0 < t.quantity ∧ 0 < t.price)
    ∧ (∀ h ∈ (calculate_symbol_fifo "BTC" c10_txs).holdings,
        h.total_cost_basis = h.quantity * h.avg_cost ∧ 0 < h.quantity) := by
  have hpos : ∀ t ∈ c10_txs, 0 < t.quantity ∧ 0 < t.price := by
    intro t ht
    simp only [c10_txs, List.mem_cons, List.not_mem_nil, or_false] at ht
    rcases ht with rfl | rfl <;> norm_num
  exact ⟨hpos, (claim10_lot_invariant "BTC" c10_txs hpos).2⟩

/-! FIFO order lemmas (claim C2). -/

lemma mem_insert_by_date (t x : Tx) :
    ∀ l, x ∈ insert_by_date t l ↔ x = t ∨ x ∈ l := by
  intro l
  induction l with
  | nil => simp [insert_by_date]
  | cons u us ih =>
    simp only [insert_by_date]
    by_cases h : t.date ≤ u.date
    · rw [if_pos h]
      simp [List.mem_cons]
    · rw [if_neg h]
      simp only [List.mem_cons, ih]
      tauto

lemma sorted_insert_by_date (t : Tx) :
    ∀ l, List.Sorted (fun a b : Tx => a.date ≤ b.date) l →
      List.Sorted (fun a b : Tx => a.date ≤ b.date) (insert_by_date t l) := by
  intro l
  induction l with
  | nil => intro _; simp [insert_by_date]
  | cons u us ih =>
    intro hs
    rw [List.sorted_cons] at hs
    simp only [insert_by_date]
    by_cases h : t.date ≤ u.date
    · rw [if_pos h, List.sorted_cons]
      constructor
      · intro b hb
        rcases List.mem_cons.mp hb with rfl | hb2
        · exact h
        · exact le_trans h (hs.1 b hb2)
      · exact List.sorted_cons.mpr hs
    · rw [if_neg h, List.sorted_cons]
      constructor
      · intro b hb
        rcases (mem_insert_by_date t b us).mp hb with rfl | hb2
        · exact (not_le.mp h).le
        · exact hs.1 b hb2
      · exact ih hs.2

lemma sorted_sort_by_date (df : List Tx) :
    List.Sorted (fun a b : Tx => a.date ≤ b.date) (sort_by_date df) := by
  unfold sort_by_date
  induction df with
  | nil => simp
  | cons t rest ih =>
    rw [List.foldr_cons]
    exact sorted_insert_by_date t _ ih

/-- FIFO behaviour of one sale on a date-sorted queue: the emitted records
have non-decreasing purchase dates drawn from the queue, the surviving
queue is a suffix of the original (the partially consumed front lot keeps
its date), and the purchase date of every emitted record is at most the
date of every surviving lot — no lot is matched while an earlier lot remains. -/
lemma sale_loop_fifo (symbol : String) (d : Int) (P : ℚ) :
    ∀ (queue : List Lot) (Q : ℚ),
      List.Sorted (· ≤ ·) (queue.map Lot.date) →
      List.Sorted (· ≤ ·)
        ((process_sale_loop symbol d P Q queue).1.details.map MatchRecord.purchase_date)
      ∧ (∀ m ∈ (process_sale_loop symbol d P Q queue).1.details,
          m.purchase_date ∈ queue.map Lot.date)
      ∧ ((process_sale_loop symbol d P Q queue).2.map Lot.date).IsSuffix
          (queue.map Lot.date)
      ∧ (∀ m ∈ (process_sale_loop symbol d P Q queue).1.details,
          ∀ x ∈ (process_sale_loop symbol d P Q queue).2.map Lot.date,
            m.purchase_date ≤ x) := by
  intro queue
  induction queue with
  | nil =>
    intro Q _
    refine ⟨?_, ?_, ?_, ?_⟩
    · simp [process_sale_loop, empty_sale_result]
    · intro m hm; simp [process_sale_loop, empty_sale_result] at hm
    · simp only [process_sale_loop]
      exact List.suffix_refl _
    · intro m hm; simp [process_sale_loop, empty_sale_result] at hm
  | cons lot rest ih =>
    intro Q hs
    rw [List.map_cons] at hs
    obtain ⟨hhead, htail⟩ := List.sorted_cons.mp hs
    simp only [process_sale_loop]
    by_cases h1 : 0 < Q
    · rw [if_pos h1]
      by_cases h2 : lot.quantity ≤ Q
      · rw [if_pos h2]
        obtain ⟨ihs, ihmem, ihsuf, ihbound⟩ := ih (Q - lot.quantity) htail
        refine ⟨?_, ?_, ?_, ?_⟩
        · rw [prepend_match_details, List.map_cons, List.sorted_cons]
          refine ⟨?_, ihs⟩
          intro b hb
          obtain ⟨m, hm, rfl⟩ := List.mem_map.mp hb
          exact hhead _ (ihmem m hm)
        · intro m hm
          rw [prepend_match_details] at hm
          rcases List.mem_cons.mp hm with rfl | hm2
          · simp [mk_match, List.map_cons]
          · exact List.mem_cons_of_mem _ (ihmem m hm2)
        · exact ihsuf.trans (List.suffix_cons lot.date (rest.map Lot.date))
        · intro m hm x hx
          rw [prepend_match_details] at hm
          rcases List.mem_cons.mp hm with rfl | hm2
          · exact hhead x (ihsuf.subset hx)
          · exact ihbound m hm2 x hx
      · rw [if_neg h2]
        refine ⟨?_, ?_, ?_, ?_⟩
        · rw [prepend_match_details]
          simp [empty_sale_result]
        · intro m hm
          rw [prepend_match_details] at hm
          rcases List.mem_cons.mp hm with rfl | hm2
          · simp [mk_match, List.map_cons]
          · simp [empty_sale_result] at hm2
        · have hdate : (lot_partial_update lot Q).date = lot.date := rfl
          rw [List.map_cons, hdate]
          exact List.suffix_refl _
        · intro m hm x hx
          rw [prepend_match_details] at hm
          rcases List.mem_cons.mp hm with rfl | hm2
          · have hdate : (lot_partial_update lot Q).date = lot.date := rfl
            rw [List.map_cons, hdate] at hx
            rcases List.mem_cons.mp hx with rfl | hx2
            · exact le_refl _
            · exact hhead x hx2
          · simp [empty_sale_result] at hm2
    · rw [if_neg h1]
      refine ⟨?_, ?_, ?_, ?_⟩
      · simp [empty_sale_result]
      · intro m hm; simp [empty_sale_result] at hm
      · exact List.suffix_refl _
      · intro m hm; simp [empty_sale_result] at hm

/-- The transaction fold on date-sorted input keeps the queue date-sorted
and the full detail list non-decreasing in purchase_date. -/
lemma symbol_fold_fifo (symbol : String) :
    ∀ (txs : List Tx) (st : SaleResult × List Lot),
      List.Sorted (fun a b : Tx => a.date ≤ b.date) txs →
      List.Sorted (· ≤ ·) (st.2.map Lot.date) →
      List.Sorted (· ≤ ·) (st.1.details.map MatchRecord.purchase_date) →
      (∀ m ∈ st.1.details, ∀ x ∈ st.2.map Lot.date, m.purchase_date ≤ x) →
      (∀ x ∈ st.2.map Lot.date, ∀ t ∈ txs, x ≤ t.date) →
      (∀ m ∈ st.1.details, ∀ t ∈ txs, m.purchase_date ≤ t.date) →
      List.Sorted (· ≤ ·)
        ((txs.foldl (symbol_fifo_step symbol) st).1.details.map
          MatchRecord.purchase_date) := by
  intro txs
  induction txs with
  | nil =>
    intro st _ _ hd _ _ _
    exact hd
  | cons t rest ih =>
    intro st hstx hq hd hdq hqf hdf
    rw [List.foldl_cons]
    obtain ⟨hthead, htsort⟩ := List.sorted_cons.mp hstx
    unfold symbol_fifo_step
    by_cases hb : (str_lower t.type == "buy") = true
    · rw [if_pos hb]
      apply ih _ htsort
      · rw [List.map_append]
        refine List.pairwise_append.mpr ⟨hq, by simp, ?_⟩
        intro a ha b hb2
        simp only [List.map_cons, List.map_nil, List.mem_singleton] at hb2
        subst hb2
        show a ≤ (mk_lot symbol t).date
        exact hqf a ha t (List.mem_cons_self _ _)
      · exact hd
      · intro m hm x hx
        rw [List.map_append] at hx
        rcases List.mem_append.mp hx with hx1 | hx1
        · exact hdq m hm x hx1
        · simp only [List.map_cons, List.map_nil, List.mem_singleton] at hx1
          subst hx1
          exact hdf m hm t (List.mem_cons_self _ _)
      · intro x hx u hu
        rw [List.map_append] at hx
        rcases List.mem_append.mp hx with hx1 | hx1
        · exact hqf x hx1 u (List.mem_cons_of_mem _ hu)
        · simp only [List.map_cons, List.map_nil, List.mem_singleton] at hx1
          subst hx1
          exact hthead u hu
      · intro m hm u hu
        exact hdf m hm u (List.mem_cons_of_mem _ hu)
    · rw [if_neg hb]
      by_cases hsell : (str_lower t.type == "sell") = true
      · rw [if_pos hsell]
        obtain ⟨hs1, hs2, hs3, hs4⟩ :=
          sale_loop_fifo symbol t.date t.price st.2 t.quantity hq
        have hsub : ∀ x ∈ ((process_sale st.2 symbol t.date t.quantity t.price).2.map
            Lot.date), x ∈ st.2.map Lot.date := fun x hx => hs3.subset hx
        apply ih _ htsort
        · exact List.Pairwise.sublist hs3.sublist hq
        · rw [List.map_append]
          refine List.pairwise_append.mpr ⟨hd, hs1, ?_⟩
          intro a ha b hb2
          obtain ⟨m, hm, rfl⟩ := List.mem_map.mp ha
          obtain ⟨m2, hm2, rfl⟩ := List.mem_map.mp hb2
          exact hdq m hm m2.purchase_date (hs2 m2 hm2)
        · intro m hm x hx
          rcases List.mem_append.mp hm with hm1 | hm1
          · exact hdq m hm1 x (hsub x hx)
          · exact hs4 m hm1 x hx
        · intro x hx u hu
          exact hqf x (hsub x hx) u (List.mem_cons_of_mem _ hu)
        · intro m hm u hu
          rcases List.mem_append.mp hm with hm1 | hm1
          · exact hdf m hm1 u (List.mem_cons_of_mem _ hu)
          · exact hqf m.purchase_date (hs2 m hm1) u (List.mem_cons_of_mem _ hu)
      · rw [if_neg hsell]
        apply ih _ htsort hq hd hdq
        · intro x hx u hu
          exact hqf x hx u (List.mem_cons_of_mem _ hu)
        · intro m hm u hu
          exact hdf m hm u (List.mem_cons_of_mem _ hu)

/-- Claim C2: for any input rows and any symbol, the engine processes that
rows of that symbol in ascending date order, and the MatchRecords it emits have
non-decreasing purchase_date; moreover, on any date-sorted queue, a sale
leaves the queue a suffix of itself (front lots are consumed first, a
partially consumed lot keeps its place and date) and the purchase date of
every emitted record is at most the date of every lot still in the queue — a later
lot is never matched while an earlier lot with remaining quantity exists. -/
theorem claim2_fifo_order (df : List Tx) (s : String) :
    List.Sorted (· ≤ ·)
      ((calculate_symbol_fifo s (sort_by_date (df.filter (fun t => t.symbol == s)))).details.map
        MatchRecord.purchase_date)
    ∧ (∀ (d : Int) (P Q : ℚ) (queue : List Lot),
        List.Sorted (· ≤ ·) (queue.map Lot.date) →
        ((process_sale_loop s d P Q queue).2.map Lot.date).IsSuffix
          (queue.map Lot.date)
        ∧ ∀ m ∈ (process_sale_loop s d P Q queue).1.details,
            ∀ x ∈ (process_sale_loop s d P Q queue).2.map Lot.date,
              m.purchase_date ≤ x) := by
  constructor
  · have hsorted := sorted_sort_by_date (df.filter (fun t => t.symbol == s))
    have hdetails : (calculate_symbol_fifo s
        (sort_by_date (df.filter (fun t => t.symbol == s)))).details =
        ((sort_by_date (df.filter (fun t => t.symbol == s))).foldl
          (symbol_fifo_step s) (empty_sale_result, [])).1.details := rfl
    rw [hdetails]
    apply symbol_fold_fifo s _ _ hsorted
    · simp
    · simp [empty_sale_result]
    · intro m hm; simp [empty_sale_result] at hm
    · intro x hx; simp at hx
    · intro m hm; simp [empty_sale_result] at hm
  · intro d P Q queue hqueue
    obtain ⟨_, _, h3, h4⟩ := sale_loop_fifo s d P queue Q hqueue
    exact ⟨h3, h4⟩

/-- Witness for claim C2 at a concrete transaction list and queue. -/
theorem claim2_fifo_order_witness :
    List.Sorted (· ≤ ·)
      (([({ symbol := "BTC", date := 0, quantity := 1, price := 10, cost_basis := 10 } : Lot),
         { symbol := "BTC", date := 5, quantity := 1, price := 10, cost_basis := 10 }]).map
        Lot.date)
    ∧ (((process_sale_loop "BTC" 10 20 (3/2)
          [({ symbol := "BTC", date := 0, quantity := 1, price := 10, cost_basis := 10 } : Lot),
           { symbol := "BTC", date := 5, quantity := 1, price := 10, cost_basis := 10 }]).2.map
          Lot.date).IsSuffix
        (([({ symbol := "BTC", date := 0, quantity := 1, price := 10, cost_basis := 10 } : Lot),
           { symbol := "BTC", date := 5, quantity := 1, price := 10, cost_basis := 10 }]).map
          Lot.date)
      ∧ ∀ m ∈ (process_sale_loop "BTC" 10 20 (3/2)
          [({ symbol := "BTC", date := 0, quantity := 1, price := 10, cost_basis := 10 } : Lot),
           { symbol := "BTC", date := 5, quantity := 1, price := 10, cost_basis := 10 }]).1.details,
          ∀ x ∈ (process_sale_loop "BTC" 10 20 (3/2)
            [({ symbol := "BTC", date := 0, quantity := 1, price := 10, cost_basis := 10 } : Lot),
             { symbol := "BTC", date := 5, quantity := 1, price := 10, cost_basis := 10 }]).2.map
            Lot.date, m.purchase_date ≤ x)
    ∧ List.Sorted (· ≤ ·)
      ((calculate_symbol_fifo "BTC"
        (sort_by_date (c2_df.filter (fun t => t.symbol == "BTC")))).details.map
        MatchRecord.purchase_date) := by
  have hq : List.Sorted (· ≤ ·)
      (([({ symbol := "BTC", date := 0, quantity := 1, price := 10, cost_basis := 10 } : Lot),
         { symbol := "BTC", date := 5, quantity := 1, price := 10, cost_basis := 10 }]).map
        Lot.date) := by
    simp [List.sorted_cons]
  exact ⟨hq, (claim2_fifo_order c2_df "BTC").2 10 20 (3/2) _ hq,
    (claim2_fifo_order c2_df "BTC").1⟩

end CryptoTax
